import Mathlib

/-!
Shallow embedding of the `lolo` trading-strategy repository: the technical
indicator library (`src/project/src/strategies/indicators.ts`) and the
`WeightedStrategy` backtesting engine defined in the same module.

Numbers (JS `number`) are modelled as real numbers.  JS `Math.sqrt` is
`Real.sqrt`, `Math.abs` is `|·|`, `Math.pow (x, 2)` is `x ^ 2`,
`Math.max` is `max`.  `arr.reduce((a, b) => a + b, 0)` is `List.sum`,
`arr.slice(-p)` is `fun l => l.drop (l.length - p)` (truncated ℕ
subtraction reproduces the clamping of negative JS indices), and
`arr.slice(0, k)` is `List.take k`.  The engine's side effects (the
`this.position`/`this.entryPrice`/`this.positionSize` instance fields and
the invocations of the optional `onProgress` callback) are made explicit:
the strategy state is threaded in and out of `backtest`, and the indices
at which the callback fires are accumulated in an `emitted` list.
The pause/resume flag and the yield-to-event-loop delays have no effect
on any value computed by the run and are not modelled.
-/

namespace Lolo

noncomputable section

/-- Signal direction of an indicator (`'buy' | 'sell' | 'neutral'`). -/
inductive Signal where
  | buy
  | sell
  | neutral
  deriving DecidableEq, Repr

/-- `IndicatorResult` from `indicators.ts`. -/
structure IndicatorResult where
  value : ℝ
  signal : Signal
  weight : ℝ

/-- `StrategyResult` from `indicators.ts` (the `indicators` record is
flattened into four fields). -/
structure StrategyResult where
  totalSignal : ℝ
  recommendation : Signal
  rsi : IndicatorResult
  macd : IndicatorResult
  bollinger : IndicatorResult
  volume : IndicatorResult

/-- `average(arr) = arr.reduce((a, b) => a + b, 0) / arr.length`.
For the empty list this is `0 / 0 = 0` in Lean. -/
def average (arr : List ℝ) : ℝ := arr.sum / arr.length

/-- `arr.slice(-p)`: the last `min p (length arr)` elements. -/
def sliceLast (arr : List ℝ) (p : ℕ) : List ℝ := arr.drop (arr.length - p)

/-- The `gains` array built by the loop in `calculateSimpleRSI`:
for each consecutive pair, the difference if it is `≥ 0`, else `0`. -/
def gainsOf (prices : List ℝ) : List ℝ :=
  (prices.zip prices.tail).map (fun p => if p.2 - p.1 ≥ 0 then p.2 - p.1 else 0)

/-- The `losses` array built by the loop in `calculateSimpleRSI`:
for each consecutive pair, `0` if the difference is `≥ 0`, else its
absolute value. -/
def lossesOf (prices : List ℝ) : List ℝ :=
  (prices.zip prices.tail).map (fun p => if p.2 - p.1 ≥ 0 then 0 else |p.2 - p.1|)

/-- `calculateSimpleRSI(prices, period)` from `indicators.ts`. -/
def calculateSimpleRSI (prices : List ℝ) (period : ℕ) : ℝ :=
  let avgGain := average (sliceLast (gainsOf prices) period)
  let avgLoss := average (sliceLast (lossesOf prices) period)
  if avgLoss = 0 then 100
  else
    let rs := avgGain / avgLoss
    100 - 100 / (1 + rs)

/-- `calculateRSI(prices, period = 14)` from `indicators.ts`. -/
def calculateRSI (prices : List ℝ) (period : ℕ) : IndicatorResult :=
  let rsiValue := calculateSimpleRSI prices period
  { value := rsiValue
    signal := if rsiValue > 70 then Signal.sell
              else if rsiValue < 30 then Signal.buy
              else Signal.neutral
    weight := 0.3 }

/-- `calculateEMA(prices, period)` from `indicators.ts`: seed with the
simple average of the first `period` prices, then fold the recurrence
`ema = (price - ema) * multiplier + ema` over the remaining prices. -/
def calculateEMA (prices : List ℝ) (period : ℕ) : ℝ :=
  let multiplier : ℝ := 2 / ((period : ℝ) + 1)
  (prices.drop period).foldl (fun ema p => (p - ema) * multiplier + ema)
    (average (prices.take period))

/-- `calculateSimpleMACD(prices) = EMA₁₂ − EMA₂₆`. -/
def calculateSimpleMACD (prices : List ℝ) : ℝ :=
  calculateEMA prices 12 - calculateEMA prices 26

/-- `calculateMACD(prices)` from `indicators.ts`. -/
def calculateMACD (prices : List ℝ) : IndicatorResult :=
  let macdValue := calculateSimpleMACD prices
  { value := macdValue
    signal := if macdValue > 0 then Signal.buy
              else if macdValue < 0 then Signal.sell
              else Signal.neutral
    weight := 0.25 }

/-- `calculateStandardDeviation(values)` from `indicators.ts`
(population standard deviation: divide by the length, then `Math.sqrt`). -/
def calculateStandardDeviation (values : List ℝ) : ℝ :=
  let avg := average values
  Real.sqrt (average (values.map (fun value => (value - avg) ^ 2)))

/-- The record returned by `calculateSimpleBollinger`. -/
structure BollingerBands where
  upper : ℝ
  lower : ℝ
  middle : ℝ

/-- `calculateSimpleBollinger(prices)`: 20-period SMA ± 2 standard
deviations over the last 20 prices. -/
def calculateSimpleBollinger (prices : List ℝ) : BollingerBands :=
  let sma := average (sliceLast prices 20)
  let stdDev := calculateStandardDeviation (sliceLast prices 20)
  { upper := sma + 2 * stdDev
    lower := sma - 2 * stdDev
    middle := sma }

/-- `calculateBollingerBands(prices)` from `indicators.ts`;
`prices[prices.length - 1]` is modelled as `getLastD _ 0`. -/
def calculateBollingerBands (prices : List ℝ) : IndicatorResult :=
  let bands := calculateSimpleBollinger prices
  let currentPrice := prices.getLastD 0
  { value := currentPrice
    signal := if currentPrice > bands.upper then Signal.sell
              else if currentPrice < bands.lower then Signal.buy
              else Signal.neutral
    weight := 0.25 }

/-- `analyzeVolume(volumes)`: mean of the last 5 volumes over the mean of
`volumes.slice(-20, -5)` (the 15 volumes preceding those). -/
def analyzeVolume (volumes : List ℝ) : ℝ :=
  let recentVolume := average (sliceLast volumes 5)
  let historicalVolume :=
    average ((volumes.drop (volumes.length - 20)).take
      ((volumes.length - 5) - (volumes.length - 20)))
  recentVolume / historicalVolume

/-- `calculateVolumeSignal(volumes)` from `indicators.ts`. -/
def calculateVolumeSignal (volumes : List ℝ) : IndicatorResult :=
  let volumeSignal := analyzeVolume volumes
  { value := volumeSignal
    signal := if volumeSignal > 1.5 then Signal.buy
              else if volumeSignal < 0.5 then Signal.sell
              else Signal.neutral
    weight := 0.2 }

/-- `MarketData` from the strategy module. -/
structure MarketData where
  prices : List ℝ
  volumes : List ℝ
  timestamp : ℤ

/-- The directional value the aggregator assigns to a signal:
`buy ↦ 1`, `sell ↦ -1`, `neutral ↦ 0`. -/
def signalValue : Signal → ℝ
  | Signal.buy => 1
  | Signal.sell => -1
  | Signal.neutral => 0

/-- `WeightedStrategy.analyze(data)`: the four indicators, the weighted
sum accumulated over the list `[rsi, macd, bollinger, volume]`, and the
threshold recommendation. -/
def analyze (rsiPeriod : ℕ) (signalThreshold : ℝ) (data : MarketData) :
    StrategyResult :=
  let rsi := calculateRSI data.prices rsiPeriod
  let macd := calculateMACD data.prices
  let bollinger := calculateBollingerBands data.prices
  let volume := calculateVolumeSignal data.volumes
  let totalSignal :=
    [rsi, macd, bollinger, volume].foldl
      (fun acc indicator => acc + signalValue indicator.signal * indicator.weight) 0
  { totalSignal := totalSignal
    recommendation := if totalSignal > signalThreshold then Signal.buy
                      else if totalSignal < -signalThreshold then Signal.sell
                      else Signal.neutral
    rsi := rsi
    macd := macd
    bollinger := bollinger
    volume := volume }

/-- A candle as consumed by `backtest`; only `timestamp`, `close` and
`volume` are read by the engine (`parseFloat` on a well-formed numeric
field is the field's value). -/
structure Candle where
  timestamp : ℤ
  close : ℝ
  volume : ℝ

instance : Inhabited Candle := ⟨⟨0, 0, 0⟩⟩

/-- Trade direction (`'buy' | 'sell'`). -/
inductive TradeType where
  | buy
  | sell
  deriving DecidableEq, Repr

/-- The indicator snapshot stored on trades and progress reports. -/
structure Analysis where
  rsi : ℝ
  macd : ℝ
  bollingerPosition : ℝ
  volumeSignal : ℝ
  totalSignal : ℝ

/-- `Trade` from the strategy module. -/
structure Trade where
  timestamp : ℤ
  type : TradeType
  price : ℝ
  profit : Option ℝ
  size : ℝ
  indicators : Option Analysis

/-- `BacktestResult` from the strategy module. -/
structure BacktestResult where
  totalTrades : ℕ
  winningTrades : ℕ
  losingTrades : ℕ
  winRate : ℝ
  profit : ℝ
  maxDrawdown : ℝ
  sharpeRatio : ℝ
  trades : List Trade
  equity : List ℝ

/-- The engine's position state (`'none' | 'long'`). -/
inductive Position where
  | none
  | long
  deriving DecidableEq, Repr

/-- The mutable instance fields of `WeightedStrategy` that survive across
calls to `backtest` (`this.position`, `this.entryPrice`,
`this.positionSize`). -/
structure StrategyState where
  position : Position
  entryPrice : ℝ
  positionSize : ℝ

/-- The constructor configuration of `WeightedStrategy`
(`rsiPeriod = 14`, `signalThreshold = 0.6` by default). -/
structure Config where
  rsiPeriod : ℕ
  signalThreshold : ℝ

/-- All state accumulated inside one `backtest` call: the instance
fields plus the run-local mutable variables, the trade log, the equity
curve and the list of loop indices at which the `onProgress` callback
was invoked. -/
structure EngineState where
  position : Position
  entryPrice : ℝ
  positionSize : ℝ
  currentCapital : ℝ
  maxCapital : ℝ
  maxDrawdown : ℝ
  winningTrades : ℕ
  losingTrades : ℕ
  trades : List Trade
  equity : List ℝ
  emitted : List ℕ

/-- The position state machine of the loop body (`indicators.ts`
lines 287–339): a buy entry while flat when `totalSignal > threshold`, a
sell exit while long when `totalSignal < -threshold`, otherwise no
change. -/
def tradeLogic (signalThreshold : ℝ) (ts : ℤ) (totalSignal : ℝ)
    (currentPrice : ℝ) (lastAnalysis : Analysis) (s : EngineState) :
    EngineState :=
  match s.position with
  | Position.none =>
    if totalSignal > signalThreshold then
      let positionSize := s.currentCapital * 0.95 / currentPrice
      { s with
        positionSize := positionSize
        position := Position.long
        entryPrice := currentPrice
        trades := s.trades ++
          [⟨ts, TradeType.buy, currentPrice, Option.none, positionSize,
            Option.some lastAnalysis⟩] }
    else s
  | Position.long =>
    if totalSignal < -signalThreshold then
      let exitPrice := currentPrice
      let profit := (exitPrice - s.entryPrice) * s.positionSize
      let newCapital := s.currentCapital + profit
      let newMaxCapital := max s.maxCapital newCapital
      let drawdown := (newMaxCapital - newCapital) / newMaxCapital
      { s with
        currentCapital := newCapital
        winningTrades := if profit > 0 then s.winningTrades + 1 else s.winningTrades
        losingTrades := if profit > 0 then s.losingTrades else s.losingTrades + 1
        trades := s.trades ++
          [⟨ts, TradeType.sell, exitPrice, Option.some profit, s.positionSize,
            Option.some lastAnalysis⟩]
        position := Position.none
        positionSize := 0
        maxCapital := newMaxCapital
        maxDrawdown := max s.maxDrawdown drawdown }
    else s

/-- One iteration of the `for` loop of `backtest` at index `i`:
build the window `data.slice(0, i + 1)`, analyze it, run the trading
logic, push the capital onto the equity curve, and invoke `onProgress`
when `i % 50 === 0 || trades.length > 0`. -/
def backtestStep (rsiPeriod : ℕ) (signalThreshold : ℝ) (data : List Candle)
    (i : ℕ) (s : EngineState) : EngineState :=
  let window := data.take (i + 1)
  let prices := window.map Candle.close
  let volumes := window.map Candle.volume
  let result := analyze rsiPeriod signalThreshold
    ⟨prices, volumes, (data.getD i default).timestamp⟩
  let currentPrice := prices.getLastD 0
  let lastAnalysis : Analysis :=
    ⟨result.rsi.value, result.macd.value, result.bollinger.value,
      result.volume.value, result.totalSignal⟩
  let s1 := tradeLogic signalThreshold (data.getD i default).timestamp
    result.totalSignal currentPrice lastAnalysis s
  let s2 := { s1 with equity := s1.equity ++ [s1.currentCapital] }
  if i % 50 = 0 ∨ s2.trades.length > 0 then
    { s2 with emitted := s2.emitted ++ [i] }
  else s2

/-- The run-local state at the top of `backtest`: instance fields are
carried over unchanged, the local accumulators start fresh and
`equity = [initialCapital]`. -/
def initState (st : StrategyState) (initialCapital : ℝ) : EngineState :=
  { position := st.position
    entryPrice := st.entryPrice
    positionSize := st.positionSize
    currentCapital := initialCapital
    maxCapital := initialCapital
    maxDrawdown := 0
    winningTrades := 0
    losingTrades := 0
    trades := []
    equity := [initialCapital]
    emitted := [] }

/-- `minCandles = Math.max(rsiPeriod + 1, 26)`: the warm-up index. -/
def minCandles (rsiPeriod : ℕ) : ℕ := max (rsiPeriod + 1) 26

/-- The engine state after the loop has processed all indices in
`[minCandles, k)` (so `loopState … data.length` is the state when the
loop exits). -/
def loopState (cfg : Config) (st : StrategyState) (data : List Candle)
    (initialCapital : ℝ) (k : ℕ) : EngineState :=
  (List.range' (minCandles cfg.rsiPeriod) (k - minCandles cfg.rsiPeriod)).foldl
    (fun s i => backtestStep cfg.rsiPeriod cfg.signalThreshold data i s)
    (initState st initialCapital)

/-- The `returns` array of the Sharpe computation:
`equity.map((val, i) => i === 0 ? 0 : (val - equity[i-1]) / equity[i-1])`. -/
def stepReturns (equity : List ℝ) : List ℝ :=
  (List.range equity.length).map (fun i =>
    if i = 0 then 0
    else (equity.getD i 0 - equity.getD (i - 1) 0) / equity.getD (i - 1) 0)

/-- The Sharpe-ratio block of `backtest` (`indicators.ts` lines
371–379): mean and population standard deviation are taken over the
whole `returns` array (whose entry at index 0 is the padding `0`), and
the ratio is annualized with `√252`; `0` if the deviation is `0`. -/
def sharpeOfEquity (equity : List ℝ) : ℝ :=
  let returns := stepReturns equity
  let averageReturn := returns.sum / returns.length
  let stdDev :=
    Real.sqrt ((returns.map (fun b => (b - averageReturn) ^ 2)).sum / returns.length)
  if stdDev = 0 then 0 else averageReturn / stdDev * Real.sqrt 252

/-- The final summary assembly of `backtest` (lines 367–399). -/
def buildResult (initialCapital : ℝ) (s : EngineState) : BacktestResult :=
  let totalTrades := s.winningTrades + s.losingTrades
  let winRate : ℝ :=
    if totalTrades > 0 then ((s.winningTrades : ℝ) / (totalTrades : ℝ)) * 100 else 0
  { totalTrades := totalTrades
    winningTrades := s.winningTrades
    losingTrades := s.losingTrades
    winRate := winRate
    profit := s.currentCapital - initialCapital
    maxDrawdown := s.maxDrawdown * 100
    sharpeRatio := sharpeOfEquity s.equity
    trades := s.trades
    equity := s.equity }

/-- `WeightedStrategy.backtest(data, initialCapital, onProgress)`.
The returned triple is (the promise's outcome, the instance fields after
the call, the loop indices at which `onProgress` fired).  The guard
`!Array.isArray(data) || data.length === 0` reduces to emptiness in this
typed embedding; a throw leaves the instance fields untouched and fires
no callback. -/
def backtest (cfg : Config) (st : StrategyState) (data : List Candle)
    (initialCapital : ℝ) :
    Except String BacktestResult × StrategyState × List ℕ :=
  if data.isEmpty then (Except.error "Invalid historical data", st, [])
  else
    let final := loopState cfg st data initialCapital data.length
    (Except.ok (buildResult initialCapital final),
      ⟨final.position, final.entryPrice, final.positionSize⟩,
      final.emitted)

/-! ### Basic facts about `average` and the slice helpers -/

theorem average_nonneg (l : List ℝ) (h : ∀ x ∈ l, 0 ≤ x) : 0 ≤ average l :=
  div_nonneg (List.sum_nonneg h) (Nat.cast_nonneg _)

theorem average_eq_zero_iff (l : List ℝ) (hne : l ≠ []) (h : ∀ x ∈ l, 0 ≤ x) :
    average l = 0 ↔ ∀ x ∈ l, x = 0 := by
  have hlen : (0 : ℝ) < l.length := by
    exact_mod_cast List.length_pos.mpr hne
  unfold average
  rw [div_eq_zero_iff]
  constructor
  · rintro (hs | hl)
    · intro x hx
      by_contra hx0
      have hxpos : 0 < x := lt_of_le_of_ne (h x hx) (Ne.symm hx0)
      have hxle : x ≤ l.sum := List.single_le_sum h x hx
      linarith
    · exact absurd hl (ne_of_gt hlen)
  · intro hz
    exact Or.inl (List.sum_eq_zero hz)

theorem sliceLast_ne_nil (l : List ℝ) (p : ℕ) (hl : l ≠ []) (hp : 1 ≤ p) :
    sliceLast l p ≠ [] := by
  have hlen : 0 < l.length := List.length_pos.mpr hl
  unfold sliceLast
  rw [Ne, List.drop_eq_nil_iff]
  omega

theorem mem_sliceLast (l : List ℝ) (p : ℕ) (x : ℝ) (hx : x ∈ sliceLast l p) :
    x ∈ l := List.mem_of_mem_drop hx

theorem lossesOf_nonneg (prices : List ℝ) : ∀ x ∈ lossesOf prices, 0 ≤ x := by
  intro x hx
  simp only [lossesOf, List.mem_map] at hx
  obtain ⟨p, _, hp⟩ := hx
  rw [← hp]
  split
  · exact le_refl 0
  · exact abs_nonneg _

theorem gainsOf_nonneg (prices : List ℝ) : ∀ x ∈ gainsOf prices, 0 ≤ x := by
  intro x hx
  simp only [gainsOf, List.mem_map] at hx
  obtain ⟨p, _, hp⟩ := hx
  rw [← hp]
  split
  · assumption
  · exact le_refl 0

theorem lossesOf_length (prices : List ℝ) :
    (lossesOf prices).length = prices.length - 1 := by
  simp only [lossesOf, List.length_map, List.length_zip, List.length_tail]
  omega

/-- The projections of `calculateRSI` are the obvious ones. -/
theorem calculateRSI_eta (prices : List ℝ) (period : ℕ) :
    (calculateRSI prices period).value = calculateSimpleRSI prices period ∧
    (calculateRSI prices period).signal =
      (if calculateSimpleRSI prices period > 70 then Signal.sell
       else if calculateSimpleRSI prices period < 30 then Signal.buy
       else Signal.neutral) ∧
    (calculateRSI prices period).weight = 0.3 :=
  ⟨rfl, rfl, rfl⟩

/-- C5: for every price sequence with at least two elements and every
`period ≥ 1`, `calculateRSI` returns a value in `[0, 100]`; the value is
`100` exactly when every one of the last `period` per-step losses is
zero; the signal is `sell` above 70, `buy` below 30, `neutral`
otherwise; and the weight is `0.30`. -/
theorem rsi_bounds_and_signal (prices : List ℝ) (period : ℕ)
    (hlen : 2 ≤ prices.length) (hper : 1 ≤ period) :
    (0 ≤ (calculateRSI prices period).value ∧
      (calculateRSI prices period).value ≤ 100) ∧
    ((calculateRSI prices period).value = 100 ↔
      ∀ x ∈ sliceLast (lossesOf prices) period, x = 0) ∧
    ((calculateRSI prices period).signal =
      if (calculateRSI prices period).value > 70 then Signal.sell
      else if (calculateRSI prices period).value < 30 then Signal.buy
      else Signal.neutral) ∧
    (calculateRSI prices period).weight = 0.3 := by
  have hL : ∀ x ∈ sliceLast (lossesOf prices) period, 0 ≤ x := fun x hx =>
    lossesOf_nonneg prices x (mem_sliceLast _ _ _ hx)
  have hG : ∀ x ∈ sliceLast (gainsOf prices) period, 0 ≤ x := fun x hx =>
    gainsOf_nonneg prices x (mem_sliceLast _ _ _ hx)
  have hLne : sliceLast (lossesOf prices) period ≠ [] := by
    apply sliceLast_ne_nil _ _ _ hper
    have := lossesOf_length prices
    intro hnil
    rw [hnil] at this
    simp at this
    omega
  have hval : (calculateRSI prices period).value = calculateSimpleRSI prices period := rfl
  have hiff := average_eq_zero_iff _ hLne hL
  by_cases h0 : average (sliceLast (lossesOf prices) period) = 0
  · have h100 : calculateSimpleRSI prices period = 100 := by
      unfold calculateSimpleRSI
      simp [h0]
    refine ⟨⟨by rw [hval, h100]; norm_num, by rw [hval, h100]⟩, ?_, rfl, rfl⟩
    rw [hval, h100]
    exact ⟨fun _ => hiff.mp h0, fun _ => rfl⟩
  · have hpos : 0 < average (sliceLast (lossesOf prices) period) :=
      lt_of_le_of_ne (average_nonneg _ hL) (Ne.symm h0)
    have hGnn : 0 ≤ average (sliceLast (gainsOf prices) period) := average_nonneg _ hG
    set rs := average (sliceLast (gainsOf prices) period) /
      average (sliceLast (lossesOf prices) period) with hrs
    have hrsnn : 0 ≤ rs := div_nonneg hGnn (le_of_lt hpos)
    have hden : (0 : ℝ) < 1 + rs := by linarith
    have hfrac_pos : 0 < 100 / (1 + rs) := by positivity
    have hfrac_le : 100 / (1 + rs) ≤ 100 := by
      have h1 : (100 : ℝ) / (1 + rs) ≤ 100 / 1 :=
        div_le_div_of_nonneg_left (by norm_num) (by norm_num) (by linarith)
      simpa using h1
    have hvv : calculateSimpleRSI prices period = 100 - 100 / (1 + rs) := by
      unfold calculateSimpleRSI
      simp [h0, hrs]
    refine ⟨⟨?_, ?_⟩, ?_, rfl, rfl⟩ <;> rw [hval, hvv]
    · linarith
    · linarith
    · constructor
      · intro h
        have : (100 : ℝ) / (1 + rs) = 0 := by linarith
        exact absurd this (ne_of_gt hfrac_pos)
      · intro hz
        exact absurd (hiff.mpr hz) h0

/-- Witness for `rsi_bounds_and_signal` at `prices = [0, 1]`,
`period = 1`. -/
theorem rsi_bounds_and_signal_witness :
    (0 ≤ (calculateRSI [0, 1] 1).value ∧ (calculateRSI [0, 1] 1).value ≤ 100) ∧
    ((calculateRSI [0, 1] 1).value = 100 ↔
      ∀ x ∈ sliceLast (lossesOf [0, 1]) 1, x = 0) ∧
    ((calculateRSI [0, 1] 1).signal =
      if (calculateRSI [0, 1] 1).value > 70 then Signal.sell
      else if (calculateRSI [0, 1] 1).value < 30 then Signal.buy
      else Signal.neutral) ∧
    (calculateRSI [0, 1] 1).weight = 0.3 :=
  rsi_bounds_and_signal [0, 1] 1 (by norm_num) (by norm_num)

/-! ### The signal aggregator -/

theorem signalValue_bounds (s : Signal) : -1 ≤ signalValue s ∧ signalValue s ≤ 1 := by
  cases s <;> norm_num [signalValue]

/-- The four projections of `analyze` and the unfolded weighted sum. -/
theorem analyze_eta (p : ℕ) (θ : ℝ) (d : MarketData) :
    (analyze p θ d).rsi = calculateRSI d.prices p ∧
    (analyze p θ d).macd = calculateMACD d.prices ∧
    (analyze p θ d).bollinger = calculateBollingerBands d.prices ∧
    (analyze p θ d).volume = calculateVolumeSignal d.volumes ∧
    (analyze p θ d).totalSignal =
      0 + signalValue (calculateRSI d.prices p).signal * (calculateRSI d.prices p).weight
        + signalValue (calculateMACD d.prices).signal * (calculateMACD d.prices).weight
        + signalValue (calculateBollingerBands d.prices).signal *
            (calculateBollingerBands d.prices).weight
        + signalValue (calculateVolumeSignal d.volumes).signal *
            (calculateVolumeSignal d.volumes).weight :=
  ⟨rfl, rfl, rfl, rfl, rfl⟩

/-- C6: the four indicator weights sum to exactly `1.0` and
`totalSignal` always lies in `[-1, 1]` (on every input; `analyze` is
total in this embedding). -/
theorem analyze_weights_and_totalSignal (p : ℕ) (θ : ℝ) (d : MarketData) :
    ((analyze p θ d).rsi.weight + (analyze p θ d).macd.weight +
      (analyze p θ d).bollinger.weight + (analyze p θ d).volume.weight = 1) ∧
    (-1 ≤ (analyze p θ d).totalSignal ∧ (analyze p θ d).totalSignal ≤ 1) := by
  obtain ⟨h1l, h1r⟩ := signalValue_bounds (calculateRSI d.prices p).signal
  obtain ⟨h2l, h2r⟩ := signalValue_bounds (calculateMACD d.prices).signal
  obtain ⟨h3l, h3r⟩ := signalValue_bounds (calculateBollingerBands d.prices).signal
  obtain ⟨h4l, h4r⟩ := signalValue_bounds (calculateVolumeSignal d.volumes).signal
  obtain ⟨hr, hm, hb, hv, ht⟩ := analyze_eta p θ d
  have wr : (calculateRSI d.prices p).weight = 0.3 := rfl
  have wm : (calculateMACD d.prices).weight = 0.25 := rfl
  have wb : (calculateBollingerBands d.prices).weight = 0.25 := rfl
  have wv : (calculateVolumeSignal d.volumes).weight = 0.2 := rfl
  refine ⟨?_, ?_, ?_⟩
  · rw [hr, hm, hb, hv, wr, wm, wb, wv]; norm_num
  · rw [ht, wr, wm, wb, wv]; norm_num; linarith
  · rw [ht, wr, wm, wb, wv]; norm_num; linarith

/-! ### Loop infrastructure -/

theorem range'_snoc (s n : ℕ) : List.range' s (n + 1) = List.range' s n ++ [s + n] := by
  induction n generalizing s with
  | zero => simp
  | succ k ih =>
    rw [List.range'_succ, ih (s + 1), List.range'_succ, ← List.cons_append]
    have : s + 1 + k = s + (k + 1) := by omega
    rw [this]

theorem tradeLogic_equity (θ : ℝ) (ts : ℤ) (sig price : ℝ) (la : Analysis)
    (s : EngineState) : (tradeLogic θ ts sig price la s).equity = s.equity := by
  obtain ⟨pos, ep, ps, cc, mc, md, w, lo, tr, eq, em⟩ := s
  cases pos <;> (simp only [tradeLogic]; split <;> rfl)

theorem tradeLogic_emitted (θ : ℝ) (ts : ℤ) (sig price : ℝ) (la : Analysis)
    (s : EngineState) : (tradeLogic θ ts sig price la s).emitted = s.emitted := by
  obtain ⟨pos, ep, ps, cc, mc, md, w, lo, tr, eq, em⟩ := s
  cases pos <;> (simp only [tradeLogic]; split <;> rfl)

theorem tradeLogic_trades_ne (θ : ℝ) (ts : ℤ) (sig price : ℝ) (la : Analysis)
    (s : EngineState) (h : s.trades ≠ []) :
    (tradeLogic θ ts sig price la s).trades ≠ [] := by
  obtain ⟨pos, ep, ps, cc, mc, md, w, lo, tr, eq, em⟩ := s
  cases pos <;> (simp only [tradeLogic]; split <;> simp_all)

theorem backtestStep_equity_length (p : ℕ) (θ : ℝ) (data : List Candle) (i : ℕ)
    (s : EngineState) :
    (backtestStep p θ data i s).equity.length = s.equity.length + 1 := by
  simp only [backtestStep]
  split <;> simp [tradeLogic_equity]

theorem backtestStep_equity_append (p : ℕ) (θ : ℝ) (data : List Candle) (i : ℕ)
    (s : EngineState) :
    ∃ x, (backtestStep p θ data i s).equity = s.equity ++ [x] := by
  simp only [backtestStep]
  split <;> exact ⟨_, by rw [tradeLogic_equity]⟩

theorem loopState_le (cfg : Config) (st : StrategyState) (data : List Candle)
    (cap : ℝ) (k : ℕ) (h : k ≤ minCandles cfg.rsiPeriod) :
    loopState cfg st data cap k = initState st cap := by
  unfold loopState
  rw [Nat.sub_eq_zero_of_le h]
  rfl

theorem loopState_succ (cfg : Config) (st : StrategyState) (data : List Candle)
    (cap : ℝ) (k : ℕ) (h : minCandles cfg.rsiPeriod ≤ k) :
    loopState cfg st data cap (k + 1) =
      backtestStep cfg.rsiPeriod cfg.signalThreshold data k
        (loopState cfg st data cap k) := by
  unfold loopState
  have h1 : k + 1 - minCandles cfg.rsiPeriod = (k - minCandles cfg.rsiPeriod) + 1 := by
    omega
  have h2 : minCandles cfg.rsiPeriod + (k - minCandles cfg.rsiPeriod) = k := by omega
  rw [h1, range'_snoc, h2, List.foldl_append]
  rfl

theorem loopState_induction (cfg : Config) (st : StrategyState) (data : List Candle)
    (cap : ℝ) (P : EngineState → Prop) (h0 : P (initState st cap))
    (hstep : ∀ i s, P s →
      P (backtestStep cfg.rsiPeriod cfg.signalThreshold data i s)) :
    ∀ k, P (loopState cfg st data cap k) := by
  intro k
  unfold loopState
  suffices h : ∀ (L : List ℕ) (s : EngineState), P s →
      P (L.foldl (fun s i => backtestStep cfg.rsiPeriod cfg.signalThreshold data i s) s) by
    exact h _ _ h0
  intro L
  induction L with
  | nil => intro s hs; exact hs
  | cons a t ih => intro s hs; exact ih _ (hstep a s hs)

theorem foldl_equity_length (p : ℕ) (θ : ℝ) (data : List Candle) (L : List ℕ)
    (s : EngineState) :
    (L.foldl (fun s i => backtestStep p θ data i s) s).equity.length =
      s.equity.length + L.length := by
  induction L generalizing s with
  | nil => simp
  | cons a t ih =>
    rw [List.foldl_cons, ih, backtestStep_equity_length, List.length_cons]
    omega

theorem loopState_equity_length (cfg : Config) (st : StrategyState)
    (data : List Candle) (cap : ℝ) (k : ℕ) :
    (loopState cfg st data cap k).equity.length =
      1 + (k - minCandles cfg.rsiPeriod) := by
  unfold loopState
  rw [foldl_equity_length]
  simp [initState]

/-- C2: for any candle sequence at least as long as the warm-up index,
`backtest` returns normally (it is a total function of this embedding:
no step can raise on well-formed candles) with an equity curve of length
exactly `1 + (candleCount − warmupIndex)` whose first entry is the
initial capital. -/
theorem backtest_terminates_equity_length (cfg : Config) (st : StrategyState)
    (data : List Candle) (cap : ℝ) (h : minCandles cfg.rsiPeriod ≤ data.length) :
    ∃ r, (backtest cfg st data cap).1 = Except.ok r ∧
      r.equity.length = 1 + (data.length - minCandles cfg.rsiPeriod) ∧
      r.equity.head? = some cap := by
  have hne : data ≠ [] := by
    intro h0
    rw [h0] at h
    unfold minCandles at h
    simp at h
  refine ⟨buildResult cap (loopState cfg st data cap data.length), ?_, ?_, ?_⟩
  · unfold backtest
    rw [if_neg (by simp [hne])]
  · show (loopState cfg st data cap data.length).equity.length = _
    exact loopState_equity_length cfg st data cap data.length
  · show (loopState cfg st data cap data.length).equity.head? = some cap
    have hinv : ∀ k, ∃ t, (loopState cfg st data cap k).equity = cap :: t := by
      apply loopState_induction cfg st data cap (fun s => ∃ t, s.equity = cap :: t)
      · exact ⟨[], rfl⟩
      · intro i s hs
        obtain ⟨t, ht⟩ := hs
        obtain ⟨x, hx⟩ := backtestStep_equity_append cfg.rsiPeriod
          cfg.signalThreshold data i s
        exact ⟨t ++ [x], by rw [hx, ht]; rfl⟩
    obtain ⟨t, ht⟩ := hinv data.length
    rw [ht]
    rfl

/-- Witness for `backtest_terminates_equity_length` on 26 constant
candles with the default configuration. -/
theorem backtest_terminates_equity_length_witness :
    ∃ r, (backtest ⟨14, 0.6⟩ ⟨Position.none, 0, 0⟩
        (List.replicate 26 ⟨0, 100, 1000⟩) 1000).1 = Except.ok r ∧
      r.equity.length =
        1 + ((List.replicate 26 (⟨0, 100, 1000⟩ : Candle)).length - minCandles 14) ∧
      r.equity.head? = some 1000 :=
  backtest_terminates_equity_length ⟨14, 0.6⟩ ⟨Position.none, 0, 0⟩
    (List.replicate 26 ⟨0, 100, 1000⟩) 1000 (by simp [minCandles])

/-! ### The trade-log alternation invariant -/

/-- The alternating buy/sell pattern of a trade log of length `n` that
starts with a buy. -/
def altPattern (n : ℕ) : List TradeType :=
  (List.range n).map (fun i => if i % 2 = 0 then TradeType.buy else TradeType.sell)

/-- The loop invariant: the trade log alternates starting with `buy`,
and the position is flat exactly when the log has even length. -/
def tradeInvariant (s : EngineState) : Prop :=
  s.trades.map Trade.type = altPattern s.trades.length ∧
  (s.position = Position.none ↔ Even s.trades.length)

theorem altPattern_succ (n : ℕ) :
    altPattern (n + 1) =
      altPattern n ++ [if n % 2 = 0 then TradeType.buy else TradeType.sell] := by
  simp [altPattern, List.range_succ]

theorem tradeLogic_invariant (θ : ℝ) (ts : ℤ) (sig price : ℝ) (la : Analysis)
    (s : EngineState) (h : tradeInvariant s) :
    tradeInvariant (tradeLogic θ ts sig price la s) := by
  obtain ⟨pos, ep, ps, cc, mc, md, w, lo, tr, eq, em⟩ := s
  obtain ⟨h1, h2⟩ := h
  cases pos with
  | none =>
    have heven : Even tr.length := h2.mp rfl
    have hn : tr.length % 2 = 0 := Nat.even_iff.mp heven
    simp only [tradeLogic]
    split
    · constructor
      · show (tr ++ [_]).map Trade.type = altPattern (tr ++ [_]).length
        rw [List.map_append, List.length_append, h1]
        simp [altPattern_succ, hn]
      · show Position.long = Position.none ↔ Even (tr ++ [_]).length
        simp [List.length_append, Nat.even_add_one, Nat.even_iff, hn]
    · exact ⟨h1, h2⟩
  | long =>
    have hodd : ¬ Even tr.length := by
      intro he
      exact Position.noConfusion (h2.mpr he)
    have hn : tr.length % 2 = 1 := by
      rcases Nat.even_or_odd tr.length with he | ho
      · exact absurd he hodd
      · exact Nat.odd_iff.mp ho
    simp only [tradeLogic]
    split
    · constructor
      · show (tr ++ [_]).map Trade.type = altPattern (tr ++ [_]).length
        rw [List.map_append, List.length_append, h1]
        simp [altPattern_succ, hn]
      · show Position.none = Position.none ↔ Even (tr ++ [_]).length
        simp [List.length_append, Nat.even_add_one, Nat.even_iff, hn]
    · exact ⟨h1, h2⟩

theorem backtestStep_invariant (p : ℕ) (θ : ℝ) (data : List Candle) (i : ℕ)
    (s : EngineState) (h : tradeInvariant s) :
    tradeInvariant (backtestStep p θ data i s) := by
  simp only [backtestStep]
  split
  · exact tradeLogic_invariant _ _ _ _ _ _ h
  · exact tradeLogic_invariant _ _ _ _ _ _ h

/-- C3: in a run started flat the trade log always alternates starting
with `buy` (so every `sell` closes exactly one preceding unmatched
`buy`, and at most one position — the `long` flagged by an odd log
length — is ever open), and a trade appended by the trading logic is a
`buy` exactly when the position was flat. -/
theorem backtest_position_invariant (cfg : Config) (st : StrategyState)
    (data : List Candle) (cap : ℝ) (k : ℕ) (h : st.position = Position.none) :
    ((loopState cfg st data cap k).trades.map Trade.type =
        altPattern (loopState cfg st data cap k).trades.length ∧
      ((loopState cfg st data cap k).position = Position.none ↔
        Even (loopState cfg st data cap k).trades.length)) ∧
    (∀ (θ : ℝ) (ts : ℤ) (sig price : ℝ) (la : Analysis) (s : EngineState)
      (tr : Trade),
      (tradeLogic θ ts sig price la s).trades = s.trades ++ [tr] →
      (tr.type = TradeType.buy ↔ s.position = Position.none)) := by
  constructor
  · exact loopState_induction cfg st data cap tradeInvariant
      ⟨by simp [initState, altPattern], by simp [initState, h]⟩
      (fun i s hs => backtestStep_invariant _ _ _ _ _ hs) k
  · intro θ ts sig price la s tr htr
    obtain ⟨pos, ep, ps, cc, mc, md, w, lo, trs, eq, em⟩ := s
    cases pos with
    | none =>
      simp only [tradeLogic] at htr
      split at htr
      · have heq : tr = ⟨ts, TradeType.buy, price, Option.none,
            cc * 0.95 / price, Option.some la⟩ := by
          have h' := List.append_cancel_left htr.symm
          simp at h'
          exact h'
        rw [heq]
        simp
      · have h' := congrArg List.length htr
        simp at h'
    | long =>
      simp only [tradeLogic] at htr
      split at htr
      · have heq : tr = ⟨ts, TradeType.sell, price,
            Option.some ((price - ep) * ps), ps, Option.some la⟩ := by
          have h' := List.append_cancel_left htr.symm
          simp at h'
          exact h'
        rw [heq]
        simp
      · have h' := congrArg List.length htr
        simp at h'

/-- Witness for `backtest_position_invariant` with an empty data list
and the flat initial state. -/
theorem backtest_position_invariant_witness :
    (((loopState ⟨14, 0.6⟩ ⟨Position.none, 0, 0⟩ [] 1000 0).trades.map Trade.type =
        altPattern (loopState ⟨14, 0.6⟩ ⟨Position.none, 0, 0⟩ [] 1000 0).trades.length ∧
      ((loopState ⟨14, 0.6⟩ ⟨Position.none, 0, 0⟩ [] 1000 0).position = Position.none ↔
        Even (loopState ⟨14, 0.6⟩ ⟨Position.none, 0, 0⟩ [] 1000 0).trades.length)) ∧
    (∀ (θ : ℝ) (ts : ℤ) (sig price : ℝ) (la : Analysis) (s : EngineState)
      (tr : Trade),
      (tradeLogic θ ts sig price la s).trades = s.trades ++ [tr] →
      (tr.type = TradeType.buy ↔ s.position = Position.none))) :=
  backtest_position_invariant ⟨14, 0.6⟩ ⟨Position.none, 0, 0⟩ [] 1000 0 rfl

/-- C7: `backtest` signals the invalid-input error exactly on empty
candle data (non-arrays are unrepresentable in this typed embedding),
and in that case it fails before any simulation step: the instance
state is returned unchanged and no progress emission occurs. -/
theorem backtest_invalid_input (cfg : Config) (st : StrategyState)
    (data : List Candle) (cap : ℝ) :
    ((∃ e, (backtest cfg st data cap).1 = Except.error e) ↔ data = []) ∧
    (data = [] →
      backtest cfg st data cap = (Except.error "Invalid historical data", st, [])) := by
  constructor
  · constructor
    · rintro ⟨e, he⟩
      by_contra hne
      unfold backtest at he
      rw [if_neg (by simp [hne])] at he
      exact Except.noConfusion he
    · intro h
      subst h
      exact ⟨"Invalid historical data", rfl⟩
  · intro h
    subst h
    rfl

/-- Witness for `backtest_invalid_input` at the empty list. -/
theorem backtest_invalid_input_witness :
    backtest ⟨14, 0.6⟩ ⟨Position.none, 0, 0⟩ [] 1000 =
      (Except.error "Invalid historical data", ⟨Position.none, 0, 0⟩, []) :=
  (backtest_invalid_input ⟨14, 0.6⟩ ⟨Position.none, 0, 0⟩ [] 1000).2 rfl

/-! ### Trade counting -/

/-- The number of `sell` trades in a trade log. -/
def countSells (trades : List Trade) : ℕ :=
  (trades.filter (fun t => t.type == TradeType.sell)).length

theorem tradeLogic_counts (θ : ℝ) (ts : ℤ) (sig price : ℝ) (la : Analysis)
    (s : EngineState)
    (h : s.winningTrades + s.losingTrades = countSells s.trades) :
    (tradeLogic θ ts sig price la s).winningTrades +
      (tradeLogic θ ts sig price la s).losingTrades =
      countSells (tradeLogic θ ts sig price la s).trades := by
  obtain ⟨pos, ep, ps, cc, mc, md, w, lo, trs, eq, em⟩ := s
  cases pos with
  | none =>
    simp only [tradeLogic]
    split
    · show w + lo = countSells (trs ++ [_])
      rw [countSells, List.filter_append] at *
      simpa [countSells] using h
    · exact h
  | long =>
    simp only [tradeLogic]
    split
    · show (if _ > 0 then w + 1 else w) + (if _ > 0 then lo else lo + 1) =
        countSells (trs ++ [_])
      rw [countSells, List.filter_append]
      rw [countSells] at h
      split_ifs <;> simp [List.length_append, ← h] <;> omega
    · exact h

theorem backtestStep_counts (p : ℕ) (θ : ℝ) (data : List Candle) (i : ℕ)
    (s : EngineState)
    (h : s.winningTrades + s.losingTrades = countSells s.trades) :
    (backtestStep p θ data i s).winningTrades +
      (backtestStep p θ data i s).losingTrades =
      countSells (backtestStep p θ data i s).trades := by
  simp only [backtestStep]
  split
  · exact tradeLogic_counts _ _ _ _ _ _ h
  · exact tradeLogic_counts _ _ _ _ _ _ h

/-- C10: in the returned result, `totalTrades = winningTrades +
losingTrades` and this equals the number of `sell` trades in the trade
log (not its length); at the step level, the current capital changes
only when a `sell` trade is appended (with the realized profit), and an
appended `buy` trade changes neither the win/loss counters nor the
capital. -/
theorem backtest_total_trades_sells (cfg : Config) (st : StrategyState)
    (data : List Candle) (cap : ℝ) (hne : data ≠ []) :
    (backtest cfg st data cap).1 =
      Except.ok (buildResult cap (loopState cfg st data cap data.length)) ∧
    (buildResult cap (loopState cfg st data cap data.length)).totalTrades =
      (buildResult cap (loopState cfg st data cap data.length)).winningTrades +
      (buildResult cap (loopState cfg st data cap data.length)).losingTrades ∧
    (buildResult cap (loopState cfg st data cap data.length)).totalTrades =
      countSells (buildResult cap (loopState cfg st data cap data.length)).trades ∧
    (∀ (θ : ℝ) (ts : ℤ) (sig price : ℝ) (la : Analysis) (s : EngineState),
      (tradeLogic θ ts sig price la s).currentCapital = s.currentCapital ∨
      ∃ tr, (tradeLogic θ ts sig price la s).trades = s.trades ++ [tr] ∧
        tr.type = TradeType.sell ∧
        (tradeLogic θ ts sig price la s).currentCapital =
          s.currentCapital + (price - s.entryPrice) * s.positionSize) ∧
    (∀ (θ : ℝ) (ts : ℤ) (sig price : ℝ) (la : Analysis) (s : EngineState)
      (tr : Trade),
      (tradeLogic θ ts sig price la s).trades = s.trades ++ [tr] →
      tr.type = TradeType.buy →
      (tradeLogic θ ts sig price la s).winningTrades = s.winningTrades ∧
      (tradeLogic θ ts sig price la s).losingTrades = s.losingTrades ∧
      (tradeLogic θ ts sig price la s).currentCapital = s.currentCapital) := by
  refine ⟨?_, rfl, ?_, ?_, ?_⟩
  · unfold backtest
    rw [if_neg (by simp [hne])]
  · show (loopState cfg st data cap data.length).winningTrades +
      (loopState cfg st data cap data.length).losingTrades =
      countSells (loopState cfg st data cap data.length).trades
    exact loopState_induction cfg st data cap
      (fun s => s.winningTrades + s.losingTrades = countSells s.trades)
      (by simp [initState, countSells])
      (fun i s hs => backtestStep_counts _ _ _ _ _ hs) data.length
  · intro θ ts sig price la s
    obtain ⟨pos, ep, ps, cc, mc, md, w, lo, trs, eq, em⟩ := s
    cases pos with
    | none =>
      simp only [tradeLogic]
      split
      · exact Or.inl rfl
      · exact Or.inl rfl
    | long =>
      simp only [tradeLogic]
      split
      · exact Or.inr ⟨_, rfl, rfl, rfl⟩
      · exact Or.inl rfl
  · intro θ ts sig price la s tr htr hbuy
    obtain ⟨pos, ep, ps, cc, mc, md, w, lo, trs, eq, em⟩ := s
    cases pos with
    | none =>
      simp only [tradeLogic]
      split <;> exact ⟨rfl, rfl, rfl⟩
    | long =>
      simp only [tradeLogic] at htr ⊢
      split at htr
      · exfalso
        have h' := List.append_cancel_left htr.symm
        simp at h'
        rw [h'] at hbuy
        simp at hbuy
      · have h' := congrArg List.length htr
        simp at h'

/-- Witness for `backtest_total_trades_sells` on 26 constant candles. -/
theorem backtest_total_trades_sells_witness :
    (backtest ⟨14, 0.6⟩ ⟨Position.none, 0, 0⟩
        (List.replicate 26 ⟨0, 100, 1000⟩) 1000).1 =
      Except.ok (buildResult 1000 (loopState ⟨14, 0.6⟩ ⟨Position.none, 0, 0⟩
        (List.replicate 26 ⟨0, 100, 1000⟩) 1000
        (List.replicate 26 (⟨0, 100, 1000⟩ : Candle)).length)) ∧
    (buildResult 1000 (loopState ⟨14, 0.6⟩ ⟨Position.none, 0, 0⟩
        (List.replicate 26 ⟨0, 100, 1000⟩) 1000
        (List.replicate 26 (⟨0, 100, 1000⟩ : Candle)).length)).totalTrades =
      countSells (buildResult 1000 (loopState ⟨14, 0.6⟩ ⟨Position.none, 0, 0⟩
        (List.replicate 26 ⟨0, 100, 1000⟩) 1000
        (List.replicate 26 (⟨0, 100, 1000⟩ : Candle)).length)).trades :=
  ⟨(backtest_total_trades_sells ⟨14, 0.6⟩ ⟨Position.none, 0, 0⟩
      (List.replicate 26 ⟨0, 100, 1000⟩) 1000 (by simp)).1,
    (backtest_total_trades_sells ⟨14, 0.6⟩ ⟨Position.none, 0, 0⟩
      (List.replicate 26 ⟨0, 100, 1000⟩) 1000 (by simp)).2.2.1⟩

/-! ### Progress emission -/

theorem backtestStep_emitted_cases (p : ℕ) (θ : ℝ) (data : List Candle) (i : ℕ)
    (s : EngineState) :
    (backtestStep p θ data i s).emitted = s.emitted ++ [i] ∨
    (backtestStep p θ data i s).emitted = s.emitted := by
  simp only [backtestStep]
  split
  · exact Or.inl (by rw [tradeLogic_emitted])
  · exact Or.inr (by rw [tradeLogic_emitted])

theorem loopState_emitted_lt (cfg : Config) (st : StrategyState)
    (data : List Candle) (cap : ℝ) :
    ∀ k, ∀ j ∈ (loopState cfg st data cap k).emitted, j < k := by
  intro k
  induction k with
  | zero =>
    rw [loopState_le cfg st data cap 0 (Nat.zero_le _)]
    simp [initState]
  | succ k ih =>
    by_cases hk : minCandles cfg.rsiPeriod ≤ k
    · rw [loopState_succ cfg st data cap k hk]
      intro j hj
      rcases backtestStep_emitted_cases cfg.rsiPeriod cfg.signalThreshold data k
        (loopState cfg st data cap k) with hc | hc
      · rw [hc] at hj
        rcases List.mem_append.mp hj with hj' | hj'
        · exact Nat.lt_succ_of_lt (ih j hj')
        · simp at hj'
          omega
      · rw [hc] at hj
        exact Nat.lt_succ_of_lt (ih j hj)
    · rw [loopState_le cfg st data cap (k + 1) (by omega)]
      simp [initState]

theorem backtestStep_emitted_iff (p : ℕ) (θ : ℝ) (data : List Candle) (i : ℕ)
    (s : EngineState) (hnotin : i ∉ s.emitted) :
    i ∈ (backtestStep p θ data i s).emitted ↔
      (i % 50 = 0 ∨ (backtestStep p θ data i s).trades ≠ []) := by
  simp only [backtestStep]
  split
  · rename_i hcond
    constructor
    · intro _
      rcases hcond with hc | hc
      · exact Or.inl hc
      · refine Or.inr ?_
        rw [← List.length_pos]
        exact hc
    · intro _
      show i ∈ (tradeLogic _ _ _ _ _ s).emitted ++ [i]
      simp
  · rename_i hcond
    push_neg at hcond
    obtain ⟨h50, hlen⟩ := hcond
    constructor
    · intro hin
      exact absurd (by rwa [tradeLogic_emitted] at hin) hnotin
    · rintro (hc | hc)
      · exact absurd hc h50
      · exact absurd (List.length_pos.mpr hc) (Nat.not_lt.mpr hlen)

theorem backtestStep_mem_emitted (p : ℕ) (θ : ℝ) (data : List Candle) (i : ℕ)
    (s : EngineState) (h : s.trades ≠ []) :
    i ∈ (backtestStep p θ data i s).emitted := by
  simp only [backtestStep]
  rw [if_pos (Or.inr (List.length_pos.mpr (tradeLogic_trades_ne _ _ _ _ _ _ h)))]
  show i ∈ (tradeLogic _ _ _ _ _ s).emitted ++ [i]
  simp

theorem backtestStep_trades_ne (p : ℕ) (θ : ℝ) (data : List Candle) (i : ℕ)
    (s : EngineState) (h : s.trades ≠ []) :
    (backtestStep p θ data i s).trades ≠ [] := by
  simp only [backtestStep]
  split
  · exact tradeLogic_trades_ne _ _ _ _ _ _ h
  · exact tradeLogic_trades_ne _ _ _ _ _ _ h

theorem loopState_trades_mono (cfg : Config) (st : StrategyState)
    (data : List Candle) (cap : ℝ) (k m : ℕ) (hk : minCandles cfg.rsiPeriod ≤ k)
    (hkm : k ≤ m) (h : (loopState cfg st data cap k).trades ≠ []) :
    (loopState cfg st data cap m).trades ≠ [] := by
  induction m, hkm using Nat.le_induction with
  | base => exact h
  | succ n hn ih =>
    rw [loopState_succ cfg st data cap n (le_trans hk hn)]
    exact backtestStep_trades_ne _ _ _ _ _ ih

/-- C8: during a run, a progress snapshot is emitted at a processed step
`i` exactly when `i` is a multiple of 50 or the trade log is non-empty
after that step; in particular, once a trade exists every later
processed step emits a snapshot. -/
theorem backtest_progress_emission (cfg : Config) (st : StrategyState)
    (data : List Candle) (cap : ℝ) (i : ℕ)
    (h1 : minCandles cfg.rsiPeriod ≤ i) (h2 : i < data.length) :
    (i ∈ (loopState cfg st data cap (i + 1)).emitted ↔
      (i % 50 = 0 ∨ (loopState cfg st data cap (i + 1)).trades ≠ [])) ∧
    ((loopState cfg st data cap (i + 1)).trades ≠ [] →
      ∀ j, i < j → j < data.length →
        j ∈ (loopState cfg st data cap (j + 1)).emitted) := by
  constructor
  · rw [loopState_succ cfg st data cap i h1]
    apply backtestStep_emitted_iff
    intro hin
    exact absurd (loopState_emitted_lt cfg st data cap i i hin) (lt_irrefl i)
  · intro hne j hij _
    have hminj : minCandles cfg.rsiPeriod ≤ j := le_trans h1 (le_of_lt hij)
    rw [loopState_succ cfg st data cap j hminj]
    apply backtestStep_mem_emitted
    exact loopState_trades_mono cfg st data cap (i + 1) j (by omega) (by omega) hne

/-- Witness for `backtest_progress_emission` at step 26 of a 27-candle
run. -/
theorem backtest_progress_emission_witness :
    (26 ∈ (loopState ⟨14, 0.6⟩ ⟨Position.none, 0, 0⟩
        (List.replicate 27 ⟨0, 100, 1000⟩) 1000 (26 + 1)).emitted ↔
      (26 % 50 = 0 ∨ (loopState ⟨14, 0.6⟩ ⟨Position.none, 0, 0⟩
        (List.replicate 27 ⟨0, 100, 1000⟩) 1000 (26 + 1)).trades ≠ [])) ∧
    ((loopState ⟨14, 0.6⟩ ⟨Position.none, 0, 0⟩
        (List.replicate 27 ⟨0, 100, 1000⟩) 1000 (26 + 1)).trades ≠ [] →
      ∀ j, 26 < j → j < (List.replicate 27 (⟨0, 100, 1000⟩ : Candle)).length →
        j ∈ (loopState ⟨14, 0.6⟩ ⟨Position.none, 0, 0⟩
          (List.replicate 27 ⟨0, 100, 1000⟩) 1000 (j + 1)).emitted) :=
  backtest_progress_emission ⟨14, 0.6⟩ ⟨Position.none, 0, 0⟩
    (List.replicate 27 ⟨0, 100, 1000⟩) 1000 26 (by simp [minCandles]) (by simp)

/-! ### The sell exit -/

/-- The engine state after the §8 scenario's buy step: flat state,
capital 1000, buy signal at price 100. -/
theorem scenario_buy_step (la : Analysis) :
    tradeLogic 0.6 0 1 100 la (initState ⟨Position.none, 0, 0⟩ 1000) =
      ({ position := Position.long, entryPrice := 100, positionSize := 9.5,
         currentCapital := 1000, maxCapital := 1000, maxDrawdown := 0,
         winningTrades := 0, losingTrades := 0,
         trades := [⟨0, TradeType.buy, 100, Option.none, 9.5, Option.some la⟩],
         equity := [1000], emitted := [] } : EngineState) := by
  simp only [tradeLogic, initState]
  rw [if_pos (by norm_num : (1 : ℝ) > 0.6)]
  norm_num

/-- The engine state after the §8 scenario's sell step: long at entry
100 with size 9.5, sell signal at price 110. -/
theorem scenario_sell_step (la la' : Analysis) :
    tradeLogic 0.6 1 (-1) 110 la'
      ({ position := Position.long, entryPrice := 100, positionSize := 9.5,
         currentCapital := 1000, maxCapital := 1000, maxDrawdown := 0,
         winningTrades := 0, losingTrades := 0,
         trades := [⟨0, TradeType.buy, 100, Option.none, 9.5, Option.some la⟩],
         equity := [1000], emitted := [] } : EngineState) =
      ({ position := Position.none, entryPrice := 100, positionSize := 0,
         currentCapital := 1095, maxCapital := 1095, maxDrawdown := 0,
         winningTrades := 1, losingTrades := 0,
         trades := [⟨0, TradeType.buy, 100, Option.none, 9.5, Option.some la⟩,
           ⟨1, TradeType.sell, 110, Option.some 95, 9.5, Option.some la'⟩],
         equity := [1000], emitted := [] } : EngineState) := by
  simp only [tradeLogic]
  rw [if_pos (by norm_num : (-1 : ℝ) < -0.6)]
  have hprofit : ((110 : ℝ) - 100) * 9.5 = 95 := by norm_num
  have hmax : max (1000 : ℝ) (1000 + (110 - 100) * 9.5) = 1095 := by
    rw [max_eq_right (by norm_num)]
    norm_num
  simp only [hprofit, hmax]
  norm_num

/-- C4: a step in the LONG state with `totalSignal < -threshold` closes
the position at the close price with profit `(exit − entry) × size`,
adds the profit to the capital, counts a winning trade exactly when the
profit is positive, appends a `sell` trade carrying the profit,
transitions to FLAT and updates the running peak and max drawdown; and
the concrete §8 scenario (capital 1000, buy at 100 with size 9.5, sell
at 110) yields profit 95, capital 1095, one winning trade, no losing
trade and a 100% win rate. -/
theorem backtest_sell_exit (θ : ℝ) (ts : ℤ) (sig price : ℝ) (la : Analysis)
    (s : EngineState) (hpos : s.position = Position.long) (hsig : sig < -θ) :
    ((tradeLogic θ ts sig price la s).currentCapital =
      s.currentCapital + (price - s.entryPrice) * s.positionSize ∧
    (tradeLogic θ ts sig price la s).trades =
      s.trades ++ [⟨ts, TradeType.sell, price,
        Option.some ((price - s.entryPrice) * s.positionSize), s.positionSize,
        Option.some la⟩] ∧
    (0 < (price - s.entryPrice) * s.positionSize →
      (tradeLogic θ ts sig price la s).winningTrades = s.winningTrades + 1 ∧
      (tradeLogic θ ts sig price la s).losingTrades = s.losingTrades) ∧
    (¬ 0 < (price - s.entryPrice) * s.positionSize →
      (tradeLogic θ ts sig price la s).winningTrades = s.winningTrades ∧
      (tradeLogic θ ts sig price la s).losingTrades = s.losingTrades + 1) ∧
    (tradeLogic θ ts sig price la s).position = Position.none ∧
    (tradeLogic θ ts sig price la s).maxCapital =
      max s.maxCapital (tradeLogic θ ts sig price la s).currentCapital ∧
    (tradeLogic θ ts sig price la s).maxDrawdown =
      max s.maxDrawdown
        (((tradeLogic θ ts sig price la s).maxCapital -
          (tradeLogic θ ts sig price la s).currentCapital) /
          (tradeLogic θ ts sig price la s).maxCapital)) ∧
    ((tradeLogic 0.6 0 1 100 la
        (initState ⟨Position.none, 0, 0⟩ 1000)).positionSize = 9.5 ∧
    (tradeLogic 0.6 1 (-1) 110 la (tradeLogic 0.6 0 1 100 la
        (initState ⟨Position.none, 0, 0⟩ 1000))).currentCapital = 1095 ∧
    (tradeLogic 0.6 1 (-1) 110 la (tradeLogic 0.6 0 1 100 la
        (initState ⟨Position.none, 0, 0⟩ 1000))).winningTrades = 1 ∧
    (tradeLogic 0.6 1 (-1) 110 la (tradeLogic 0.6 0 1 100 la
        (initState ⟨Position.none, 0, 0⟩ 1000))).losingTrades = 0 ∧
    (buildResult 1000 (tradeLogic 0.6 1 (-1) 110 la (tradeLogic 0.6 0 1 100 la
        (initState ⟨Position.none, 0, 0⟩ 1000)))).winRate = 100 ∧
    (buildResult 1000 (tradeLogic 0.6 1 (-1) 110 la (tradeLogic 0.6 0 1 100 la
        (initState ⟨Position.none, 0, 0⟩ 1000)))).profit = 95) := by
  constructor
  · obtain ⟨pos, ep, ps, cc, mc, md, w, lo, trs, eq, em⟩ := s
    cases pos with
    | none => exact absurd hpos (by simp)
    | long =>
      simp only [tradeLogic]
      rw [if_pos hsig]
      refine ⟨rfl, rfl, ?_, ?_, rfl, rfl, rfl⟩
      · intro h
        constructor
        · show (if (price - ep) * ps > 0 then w + 1 else w) = w + 1
          rw [if_pos h]
        · show (if (price - ep) * ps > 0 then lo else lo + 1) = lo
          rw [if_pos h]
      · intro h
        constructor
        · show (if (price - ep) * ps > 0 then w + 1 else w) = w
          rw [if_neg h]
        · show (if (price - ep) * ps > 0 then lo else lo + 1) = lo + 1
          rw [if_neg h]
  · rw [scenario_buy_step la, scenario_sell_step la la]
    refine ⟨rfl, rfl, rfl, rfl, ?_, ?_⟩
    · show (if (0 : ℕ) + 1 + 0 > 0 then (((1 : ℕ) : ℝ) / (((1 : ℕ) + 0 : ℕ) : ℝ)) * 100 else 0) = 100
      norm_num
    · show (1095 : ℝ) - 1000 = 95
      norm_num

/-- Witness for `backtest_sell_exit`: a concrete long state with a sell
signal below the negated threshold. -/
theorem backtest_sell_exit_witness :
    (tradeLogic 0.6 1 (-1) 110 ⟨0, 0, 0, 0, 0⟩
        ({ position := Position.long, entryPrice := 100, positionSize := 9.5,
           currentCapital := 1000, maxCapital := 1000, maxDrawdown := 0,
           winningTrades := 0, losingTrades := 0, trades := [], equity := [1000],
           emitted := [] } : EngineState)).currentCapital =
      1000 + (110 - 100) * 9.5 :=
  (backtest_sell_exit 0.6 1 (-1) 110 ⟨0, 0, 0, 0, 0⟩
    ({ position := Position.long, entryPrice := 100, positionSize := 9.5,
       currentCapital := 1000, maxCapital := 1000, maxDrawdown := 0,
       winningTrades := 0, losingTrades := 0, trades := [], equity := [1000],
       emitted := [] } : EngineState) rfl (by norm_num)).1.1

/-! ### Evaluation on constant windows -/

theorem average_replicate (n : ℕ) (c : ℝ) (h : n ≠ 0) :
    average (List.replicate n c) = c := by
  unfold average
  rw [List.sum_replicate, nsmul_eq_mul, List.length_replicate]
  field_simp

theorem zip_cons_replicate {α : Type} (c : α) :
    ∀ n, (c :: List.replicate n c).zip (List.replicate n c) =
      List.replicate n (c, c) := by
  intro n
  induction n with
  | zero => rfl
  | succ m ih => simp only [List.replicate_succ, List.zip_cons_cons, ih]

theorem gainsOf_replicate (n : ℕ) (c : ℝ) :
    gainsOf (List.replicate n c) = List.replicate (n - 1) 0 := by
  cases n with
  | zero => rfl
  | succ m =>
    unfold gainsOf
    rw [List.replicate_succ, List.tail_cons, zip_cons_replicate, List.map_replicate]
    simp

theorem lossesOf_replicate (n : ℕ) (c : ℝ) :
    lossesOf (List.replicate n c) = List.replicate (n - 1) 0 := by
  cases n with
  | zero => rfl
  | succ m =>
    unfold lossesOf
    rw [List.replicate_succ, List.tail_cons, zip_cons_replicate, List.map_replicate]
    simp

theorem sliceLast_replicate (n p : ℕ) (c : ℝ) :
    sliceLast (List.replicate n c) p = List.replicate (n - (n - p)) c := by
  unfold sliceLast
  rw [List.length_replicate, List.drop_replicate]

theorem foldl_ema_const (mult c : ℝ) (m : ℕ) :
    (List.replicate m c).foldl (fun ema p => (p - ema) * mult + ema) c = c := by
  induction m with
  | zero => rfl
  | succ k ih =>
    rw [List.replicate_succ, List.foldl_cons]
    simpa using ih

theorem calculateEMA_replicate (n p : ℕ) (c : ℝ) (hp : p ≠ 0) (hpn : p ≤ n) :
    calculateEMA (List.replicate n c) p = c := by
  unfold calculateEMA
  rw [List.take_replicate, List.drop_replicate, min_eq_left hpn,
    average_replicate p c hp]
  exact foldl_ema_const _ _ _

theorem getLastD_cons {α : Type} (a d : α) (l : List α) :
    (a :: l).getLastD d = l.getLastD a := by
  cases l <;> simp [List.getLastD]

theorem getLastD_replicate {α : Type} (c d : α) :
    ∀ (n : ℕ), n ≠ 0 → (List.replicate n c).getLastD d = c := by
  intro n
  induction n generalizing d with
  | zero => intro h; exact absurd rfl h
  | succ m ih =>
    intro _
    rw [List.replicate_succ, getLastD_cons]
    cases m with
    | zero => rfl
    | succ k => exact ih c (Nat.succ_ne_zero k)

theorem getD_replicate {α : Type} [Inhabited α] (n i : ℕ) (c d : α) (h : i < n) :
    (List.replicate n c).getD i d = c := by
  simp [List.getD_eq_getElem?_getD, List.getElem?_replicate, h]

theorem rsi_const : calculateSimpleRSI (List.replicate 27 (100 : ℝ)) 14 = 100 := by
  unfold calculateSimpleRSI
  rw [lossesOf_replicate, sliceLast_replicate]
  rw [show (27 : ℕ) - 1 = 26 from rfl]
  rw [show (26 : ℕ) - (26 - 14) = 14 from rfl]
  rw [if_pos (average_replicate 14 0 (by norm_num))]

theorem calculateRSI_const :
    calculateRSI (List.replicate 27 (100 : ℝ)) 14 = ⟨100, Signal.sell, 0.3⟩ := by
  unfold calculateRSI
  rw [rsi_const]
  norm_num

theorem calculateMACD_const :
    calculateMACD (List.replicate 27 (100 : ℝ)) = ⟨0, Signal.neutral, 0.25⟩ := by
  have hm : calculateSimpleMACD (List.replicate 27 (100 : ℝ)) = 0 := by
    unfold calculateSimpleMACD
    rw [calculateEMA_replicate 27 12 100 (by norm_num) (by norm_num),
      calculateEMA_replicate 27 26 100 (by norm_num) (by norm_num)]
    norm_num
  unfold calculateMACD
  rw [hm]
  norm_num

theorem calculateBollingerBands_const :
    calculateBollingerBands (List.replicate 27 (100 : ℝ)) =
      ⟨100, Signal.neutral, 0.25⟩ := by
  have hslice : sliceLast (List.replicate 27 (100 : ℝ)) 20 =
      List.replicate 20 (100 : ℝ) := by
    rw [sliceLast_replicate]
  have hsma : average (List.replicate 20 (100 : ℝ)) = 100 :=
    average_replicate 20 100 (by norm_num)
  have hsd : calculateStandardDeviation (List.replicate 20 (100 : ℝ)) = 0 := by
    unfold calculateStandardDeviation
    rw [hsma]
    show Real.sqrt (average (List.map (fun value => ((value : ℝ) - 100) ^ 2)
      (List.replicate 20 (100 : ℝ)))) = 0
    rw [List.map_replicate]
    rw [show ((100 : ℝ) - 100) ^ 2 = 0 by norm_num]
    rw [average_replicate 20 0 (by norm_num), Real.sqrt_zero]
  have hbands : calculateSimpleBollinger (List.replicate 27 (100 : ℝ)) =
      ⟨100, 100, 100⟩ := by
    unfold calculateSimpleBollinger
    rw [hslice, hsma, hsd]
    norm_num
  have hlast : (List.replicate 27 (100 : ℝ)).getLastD 0 = 100 :=
    getLastD_replicate 100 0 27 (by norm_num)
  unfold calculateBollingerBands
  rw [hbands, hlast]
  norm_num

theorem calculateVolumeSignal_const :
    calculateVolumeSignal (List.replicate 27 (1000 : ℝ)) =
      ⟨1, Signal.neutral, 0.2⟩ := by
  have hrec : average (sliceLast (List.replicate 27 (1000 : ℝ)) 5) = 1000 := by
    rw [sliceLast_replicate]
    exact average_replicate _ 1000 (by norm_num)
  have hhist : average (((List.replicate 27 (1000 : ℝ)).drop
      ((List.replicate 27 (1000 : ℝ)).length - 20)).take
        (((List.replicate 27 (1000 : ℝ)).length - 5) -
          ((List.replicate 27 (1000 : ℝ)).length - 20))) = 1000 := by
    rw [List.length_replicate, List.drop_replicate, List.take_replicate]
    exact average_replicate _ 1000 (by norm_num)
  have hv : analyzeVolume (List.replicate 27 (1000 : ℝ)) = 1 := by
    unfold analyzeVolume
    rw [hrec, hhist]
    norm_num
  unfold calculateVolumeSignal
  rw [hv]
  norm_num

/-- `analyze` on the constant 27-candle window: the RSI is 100 (forced
sell), MACD is 0, Bollinger and volume are neutral, so the weighted sum
is `-0.3`. -/
theorem analyze_const (θ : ℝ) (ts : ℤ) :
    (analyze 14 θ ⟨List.replicate 27 100, List.replicate 27 1000, ts⟩).totalSignal
        = -(3 / 10) ∧
    (analyze 14 θ ⟨List.replicate 27 100, List.replicate 27 1000, ts⟩).rsi.value
        = 100 ∧
    (analyze 14 θ ⟨List.replicate 27 100, List.replicate 27 1000, ts⟩).macd.value
        = 0 ∧
    (analyze 14 θ ⟨List.replicate 27 100, List.replicate 27 1000, ts⟩).bollinger.value
        = 100 ∧
    (analyze 14 θ ⟨List.replicate 27 100, List.replicate 27 1000, ts⟩).volume.value
        = 1 := by
  obtain ⟨hr, hm, hb, hv, ht⟩ := analyze_eta 14 θ
    ⟨List.replicate 27 100, List.replicate 27 1000, ts⟩
  refine ⟨?_, ?_, ?_, ?_, ?_⟩
  · rw [ht]
    show (0 : ℝ) + signalValue (calculateRSI (List.replicate 27 100) 14).signal *
        (calculateRSI (List.replicate 27 100) 14).weight + _ + _ + _ = _
    rw [calculateRSI_const, calculateMACD_const, calculateBollingerBands_const,
      calculateVolumeSignal_const]
    norm_num [signalValue]
  · rw [hr, calculateRSI_const]
  · rw [hm, calculateMACD_const]
  · rw [hb, calculateBollingerBands_const]
  · rw [hv, calculateVolumeSignal_const]

/-- One full engine step on the constant 27-candle data, starting from
a long position entered at 50 with size 2: the `-0.3` composite signal
triggers the sell exit at 100 with profit 100. -/
theorem step_const :
    backtestStep 14 (1 / 5) (List.replicate 27 ⟨0, 100, 1000⟩) 26
      (initState ⟨Position.long, 50, 2⟩ 1000) =
      ({ position := Position.none, entryPrice := 50, positionSize := 0,
         currentCapital := 1100, maxCapital := 1100, maxDrawdown := 0,
         winningTrades := 1, losingTrades := 0,
         trades := [⟨0, TradeType.sell, 100, Option.some 100, 2,
           Option.some ⟨100, 0, 100, 1, -(3 / 10)⟩⟩],
         equity := [1000, 1100], emitted := [26] } : EngineState) := by
  have h1 : (List.replicate 27 (⟨0, 100, 1000⟩ : Candle)).take (26 + 1) =
      List.replicate 27 (⟨0, 100, 1000⟩ : Candle) := by
    rw [List.take_replicate]
    norm_num
  have h2 : (List.replicate 27 (⟨0, 100, 1000⟩ : Candle)).map Candle.close =
      List.replicate 27 (100 : ℝ) := by
    rw [List.map_replicate]
  have h3 : (List.replicate 27 (⟨0, 100, 1000⟩ : Candle)).map Candle.volume =
      List.replicate 27 (1000 : ℝ) := by
    rw [List.map_replicate]
  have h4 : ((List.replicate 27 (⟨0, 100, 1000⟩ : Candle)).getD 26 default) =
      (⟨0, 100, 1000⟩ : Candle) := getD_replicate 27 26 _ _ (by norm_num)
  have h5 : (List.replicate 27 (100 : ℝ)).getLastD 0 = 100 :=
    getLastD_replicate 100 0 27 (by norm_num)
  obtain ⟨ht, hr, hm, hb, hv⟩ := analyze_const (1 / 5) 0
  have h6 : tradeLogic (1 / 5) 0 (-(3 / 10)) 100 ⟨100, 0, 100, 1, -(3 / 10)⟩
      (initState ⟨Position.long, 50, 2⟩ 1000) =
      ({ position := Position.none, entryPrice := 50, positionSize := 0,
         currentCapital := 1100, maxCapital := 1100, maxDrawdown := 0,
         winningTrades := 1, losingTrades := 0,
         trades := [⟨0, TradeType.sell, 100, Option.some 100, 2,
           Option.some ⟨100, 0, 100, 1, -(3 / 10)⟩⟩],
         equity := [1000], emitted := [] } : EngineState) := by
    simp only [tradeLogic, initState]
    rw [if_pos (by norm_num : -(3 / 10 : ℝ) < -(1 / 5 : ℝ))]
    have hp : ((100 : ℝ) - 50) * 2 = 100 := by norm_num
    have hmx : max (1000 : ℝ) (1000 + (100 - 50) * 2) = 1100 := by
      rw [max_eq_right (by norm_num)]
      norm_num
    simp only [hp, hmx]
    norm_num
  simp only [backtestStep, h1, h2, h3, h4, h5]
  rw [ht, hr, hm, hb, hv, h6]
  rw [if_pos (by norm_num : 26 % 50 = 0 ∨
    ([⟨0, TradeType.sell, 100, Option.some 100, 2,
      Option.some ⟨100, 0, 100, 1, -(3 / 10)⟩⟩] : List Trade).length > 0)]
  norm_num

/-- The engine state when the loop over the constant 27-candle data
exits (a single step, at index 26). -/
theorem loop_const :
    loopState ⟨14, 1 / 5⟩ ⟨Position.long, 50, 2⟩
      (List.replicate 27 ⟨0, 100, 1000⟩) 1000 27 =
      ({ position := Position.none, entryPrice := 50, positionSize := 0,
         currentCapital := 1100, maxCapital := 1100, maxDrawdown := 0,
         winningTrades := 1, losingTrades := 0,
         trades := [⟨0, TradeType.sell, 100, Option.some 100, 2,
           Option.some ⟨100, 0, 100, 1, -(3 / 10)⟩⟩],
         equity := [1000, 1100], emitted := [26] } : EngineState) := by
  unfold loopState
  rw [show minCandles (Config.mk 14 (1 / 5)).rsiPeriod = 26 from rfl]
  rw [show (27 : ℕ) - 26 = 1 from rfl]
  rw [show List.range' 26 1 = [26] from rfl]
  rw [List.foldl_cons, List.foldl_nil]
  exact step_const

/-- The full `backtest` call on the constant 27-candle data starting
long. -/
theorem backtest_const :
    backtest ⟨14, 1 / 5⟩ ⟨Position.long, 50, 2⟩
      (List.replicate 27 ⟨0, 100, 1000⟩) 1000 =
      (Except.ok (buildResult 1000
        ({ position := Position.none, entryPrice := 50, positionSize := 0,
           currentCapital := 1100, maxCapital := 1100, maxDrawdown := 0,
           winningTrades := 1, losingTrades := 0,
           trades := [⟨0, TradeType.sell, 100, Option.some 100, 2,
             Option.some ⟨100, 0, 100, 1, -(3 / 10)⟩⟩],
           equity := [1000, 1100], emitted := [26] } : EngineState)),
        ⟨Position.none, 50, 0⟩, [26]) := by
  unfold backtest
  rw [if_neg (by simp)]
  rw [show (List.replicate 27 (⟨0, 100, 1000⟩ : Candle)).length = 27 from by simp]
  rw [loop_const]

/-! ### The Sharpe ratio against the specification's formula -/

/-- The per-step returns `(equity[i] − equity[i-1]) / equity[i-1]` for
`i ≥ 1`, exactly as named by the specification. -/
def perStepReturns (equity : List ℝ) : List ℝ :=
  (equity.zip equity.tail).map (fun p => (p.2 - p.1) / p.1)

/-- Mean of a list of reals. -/
def listMean (l : List ℝ) : ℝ := l.sum / l.length

/-- Population variance of a list of reals. -/
def popVariance (l : List ℝ) : ℝ :=
  ((l.map (fun x => (x - listMean l) ^ 2)).sum) / l.length

/-- The Sharpe ratio as the specification claims it: mean over the
per-step returns (taken over `i ≥ 1` only) divided by their population
standard deviation, times `√252`; `0` when that deviation is zero. -/
def specSharpe (equity : List ℝ) : ℝ :=
  if Real.sqrt (popVariance (perStepReturns equity)) = 0 then 0
  else listMean (perStepReturns equity) /
    Real.sqrt (popVariance (perStepReturns equity)) * Real.sqrt 252

theorem stepReturns_aux : ∀ (l : List ℝ) (a : ℝ),
    (List.range l.length).map (fun i =>
      ((a :: l).getD (i + 1) 0 - (a :: l).getD i 0) / (a :: l).getD i 0) =
    ((a :: l).zip l).map (fun p => (p.2 - p.1) / p.1) := by
  intro l
  induction l with
  | nil => intro a; rfl
  | cons b t ih =>
    intro a
    rw [List.length_cons, List.range_succ_eq_map, List.map_cons, List.map_map,
      List.zip_cons_cons, List.map_cons]
    congr 1
    have := ih b
    rw [← this]
    apply List.map_congr_left
    intro i _
    simp [List.getD_cons_succ]

/-- The code's `returns` array is the padded `0` followed by the
per-step returns. -/
theorem stepReturns_cons (e0 : ℝ) (rest : List ℝ) :
    stepReturns (e0 :: rest) = 0 :: perStepReturns (e0 :: rest) := by
  unfold stepReturns perStepReturns
  rw [List.length_cons, List.range_succ_eq_map, List.map_cons, List.map_map,
    List.tail_cons]
  congr 1
  rw [← stepReturns_aux rest e0]
  apply List.map_congr_left
  intro i _
  simp [List.getD_cons_succ]

theorem backtest_ok_eq (cfg : Config) (st : StrategyState) (data : List Candle)
    (cap : ℝ) (r : BacktestResult)
    (h : (backtest cfg st data cap).1 = Except.ok r) :
    r = buildResult cap (loopState cfg st data cap data.length) := by
  unfold backtest at h
  by_cases hd : data.isEmpty
  · rw [if_pos hd] at h
    exact Except.noConfusion h
  · rw [if_neg hd] at h
    exact (Except.ok.inj h).symm

/-- C1 (amended): the reported Sharpe ratio is mean over population
standard deviation times `√252` (0 on zero deviation) of the `returns`
array that *includes the padded 0 at index 0* — both statistics divide
by `equity.length`, not by the number of per-step returns. -/
theorem backtest_sharpe_amended (cfg : Config) (st : StrategyState)
    (data : List Candle) (cap : ℝ) (r : BacktestResult)
    (hok : (backtest cfg st data cap).1 = Except.ok r)
    (hlen : 2 ≤ r.equity.length) :
    r.sharpeRatio =
      (if Real.sqrt (popVariance (stepReturns r.equity)) = 0 then 0
       else listMean (stepReturns r.equity) /
         Real.sqrt (popVariance (stepReturns r.equity)) * Real.sqrt 252) ∧
    stepReturns r.equity = 0 :: perStepReturns r.equity := by
  constructor
  · rw [backtest_ok_eq cfg st data cap r hok]
    rfl
  · obtain ⟨e0, rest, hE⟩ : ∃ e0 rest, r.equity = e0 :: rest := by
      cases hEq : r.equity with
      | nil => rw [hEq] at hlen; simp at hlen
      | cons a t => exact ⟨a, t, rfl⟩
    rw [hE]
    exact stepReturns_cons e0 rest

/-- The code's Sharpe value on the equity curve `[1000, 1100]`: the
returns array is `[0, 1/10]`, its mean `1/20` and population deviation
`1/20`, so the ratio is `√252`. -/
theorem sharpe_eval : sharpeOfEquity [1000, 1100] = Real.sqrt 252 := by
  have hr : stepReturns [1000, 1100] = [0, 1 / 10] := by
    unfold stepReturns
    rw [show ([(1000 : ℝ), 1100].length) = 2 from rfl]
    rw [show List.range 2 = [0, 1] from rfl]
    norm_num [List.getD]
  unfold sharpeOfEquity
  rw [hr]
  have havg : ([(0 : ℝ), 1 / 10].sum) / (([(0 : ℝ), 1 / 10].length : ℕ) : ℝ) = 1 / 20 := by
    norm_num
  simp only [havg]
  have hvar : (([(0 : ℝ), 1 / 10].map (fun b => (b - 1 / 20) ^ 2)).sum) /
      (([(0 : ℝ), 1 / 10].length : ℕ) : ℝ) = 1 / 400 := by
    norm_num
  simp only [hvar]
  rw [show (1 / 400 : ℝ) = (1 / 20) ^ 2 by norm_num,
    Real.sqrt_sq (by norm_num : (0 : ℝ) ≤ 1 / 20)]
  rw [if_neg (by norm_num : (1 / 20 : ℝ) ≠ 0)]
  norm_num

/-- C1 is false on the code: a completed run with equity `[1000, 1100]`
reports Sharpe `√252`, while the specification's formula (statistics
over the per-step returns only) gives `0` because the single per-step
return has zero deviation. -/
theorem backtest_sharpe_counterexample :
    ∃ r, (backtest ⟨14, 1 / 5⟩ ⟨Position.long, 50, 2⟩
        (List.replicate 27 ⟨0, 100, 1000⟩) 1000).1 = Except.ok r ∧
      2 ≤ r.equity.length ∧ r.sharpeRatio ≠ specSharpe r.equity := by
  refine ⟨buildResult 1000
    ({ position := Position.none, entryPrice := 50, positionSize := 0,
       currentCapital := 1100, maxCapital := 1100, maxDrawdown := 0,
       winningTrades := 1, losingTrades := 0,
       trades := [⟨0, TradeType.sell, 100, Option.some 100, 2,
         Option.some ⟨100, 0, 100, 1, -(3 / 10)⟩⟩],
       equity := [1000, 1100], emitted := [26] } : EngineState), ?_, ?_, ?_⟩
  · rw [backtest_const]
  · show 2 ≤ ([(1000 : ℝ), 1100].length)
    norm_num
  · show sharpeOfEquity [1000, 1100] ≠ specSharpe [1000, 1100]
    have h2 : specSharpe [1000, 1100] = 0 := by
      have hps : perStepReturns [1000, 1100] = [1 / 10] := by
        unfold perStepReturns
        norm_num
      unfold specSharpe
      rw [hps]
      have hmean : listMean [(1 / 10 : ℝ)] = 1 / 10 := by
        norm_num [listMean]
      have hv : popVariance [(1 / 10 : ℝ)] = 0 := by
        unfold popVariance
        rw [hmean]
        norm_num
      rw [hv, Real.sqrt_zero, if_pos rfl]
    rw [sharpe_eval, h2]
    exact ne_of_gt (Real.sqrt_pos.mpr (by norm_num))

/-- Witness for `backtest_sharpe_amended` on the constant 27-candle
run. -/
theorem backtest_sharpe_amended_witness :
    (buildResult 1000
      ({ position := Position.none, entryPrice := 50, positionSize := 0,
         currentCapital := 1100, maxCapital := 1100, maxDrawdown := 0,
         winningTrades := 1, losingTrades := 0,
         trades := [⟨0, TradeType.sell, 100, Option.some 100, 2,
           Option.some ⟨100, 0, 100, 1, -(3 / 10)⟩⟩],
         equity := [1000, 1100], emitted := [26] } : EngineState)).sharpeRatio =
      (if Real.sqrt (popVariance (stepReturns [1000, 1100])) = 0 then 0
       else listMean (stepReturns [1000, 1100]) /
         Real.sqrt (popVariance (stepReturns [1000, 1100])) * Real.sqrt 252) ∧
    stepReturns [(1000 : ℝ), 1100] = 0 :: perStepReturns [(1000 : ℝ), 1100] :=
  backtest_sharpe_amended ⟨14, 1 / 5⟩ ⟨Position.long, 50, 2⟩
    (List.replicate 27 ⟨0, 100, 1000⟩) 1000 _
    (by rw [backtest_const]) (by norm_num [buildResult])

/-! ### The instance state is never reset on entry -/

/-- C9: `backtest` does not reset the position fields on entry — a call
that processes no candle hands back exactly the strategy state it was
given — and a run started in the LONG state left by an earlier call can
legitimately record a `sell` as the very first trade of its own log. -/
theorem backtest_no_state_reset :
    (∀ (cfg : Config) (st : StrategyState) (data : List Candle) (cap : ℝ),
      data ≠ [] → data.length ≤ minCandles cfg.rsiPeriod →
      (backtest cfg st data cap).2.1 = st) ∧
    (∃ (cfg : Config) (st : StrategyState) (data : List Candle) (cap : ℝ)
      (r : BacktestResult) (tr : Trade),
      st.position = Position.long ∧
      (backtest cfg st data cap).1 = Except.ok r ∧
      r.trades = [tr] ∧ tr.type = TradeType.sell) := by
  constructor
  · intro cfg st data cap hne hlen
    unfold backtest
    rw [if_neg (by simp [hne])]
    show (⟨(loopState cfg st data cap data.length).position,
      (loopState cfg st data cap data.length).entryPrice,
      (loopState cfg st data cap data.length).positionSize⟩ : StrategyState) = st
    rw [loopState_le cfg st data cap data.length hlen]
    obtain ⟨pos, ep, ps⟩ := st
    rfl
  · exact ⟨⟨14, 1 / 5⟩, ⟨Position.long, 50, 2⟩,
      List.replicate 27 ⟨0, 100, 1000⟩, 1000,
      buildResult 1000
        ({ position := Position.none, entryPrice := 50, positionSize := 0,
           currentCapital := 1100, maxCapital := 1100, maxDrawdown := 0,
           winningTrades := 1, losingTrades := 0,
           trades := [⟨0, TradeType.sell, 100, Option.some 100, 2,
             Option.some ⟨100, 0, 100, 1, -(3 / 10)⟩⟩],
           equity := [1000, 1100], emitted := [26] } : EngineState),
      ⟨0, TradeType.sell, 100, Option.some 100, 2,
        Option.some ⟨100, 0, 100, 1, -(3 / 10)⟩⟩,
      rfl, by rw [backtest_const], rfl, rfl⟩

/-- Witness for `backtest_no_state_reset`: a zero-step run on 26
candles returns the LONG entry state untouched. -/
theorem backtest_no_state_reset_witness :
    (backtest ⟨14, 0.6⟩ ⟨Position.long, 50, 2⟩
      (List.replicate 26 ⟨0, 100, 1000⟩) 1000).2.1 = ⟨Position.long, 50, 2⟩ :=
  backtest_no_state_reset.1 ⟨14, 0.6⟩ ⟨Position.long, 50, 2⟩
    (List.replicate 26 ⟨0, 100, 1000⟩) 1000 (by simp) (by simp [minCandles])

end

end Lolo
